import Mathlib

/-!
V8 `BigInt` (src/objects/bigint.h).

A shallow embedding of the `BigInt` heap object declared in
`src/objects/bigint.h`.  The inline members of the header (`ToBoolean`, `Hash`,
`SizeFor`, `set_value`, `is_zero`, the length constants and the bit fields) are
transcribed from the header.  The arithmetic (`Add`, `Multiply`, `Divide`,
`Remainder`, `AbsoluteCompare` and their kernels) is only declared there; it is
modelled limb by limb from the specification, and every such definition says
so.

`digit_t` is `uintptr_t`; its width in bits, `kDigitBits`, is a parameter `w`
of everything that touches a limb, so that both the 32-bit and the 64-bit
build are covered.  A host `int` is an `Int` in the range `kMinInt .. kMaxInt`,
with `wrapInt32` where the header says the arithmetic may overflow.  Debug
assertions (`DCHECK`) are compiled out, as in a release build; where a theorem
depends on one it appears as a hypothesis.
-/

namespace V8

/-! ## Host integers and constants of `src/globals.h` -/

/-- Modelled from the spec: `kMaxInt` of src/globals.h, which is not among the
sources: the largest 32-bit host `int`. -/
def kMaxInt : Int := 0x7FFFFFFF

/-- Modelled from the spec: `kMinInt` of src/globals.h, which is not among the
sources: the most negative 32-bit host `int`. -/
def kMinInt : Int := -kMaxInt - 1

/-- Modelled from the spec: `kBitsPerByte` of src/globals.h, which is not among
the sources. -/
def kBitsPerByte : Nat := 8

/-- Two's-complement wrap-around of a mathematical integer to a 32-bit host `int`. -/
def wrapInt32 (z : Int) : Int := (z + 2 ^ 31) % 2 ^ 32 - 2 ^ 31

/-- The value is a host `int`. -/
def isInt32 (z : Int) : Prop := kMinInt ≤ z ∧ z ≤ kMaxInt

instance (z : Int) : Decidable (isInt32 z) := by
  unfold isInt32; exact inferInstance

/-- Implicit conversion of a host `int` to `digit_t` (`uintptr_t` of `w` bits):
reduction modulo `2 ^ w`. -/
def to_digit_t (w : Nat) (v : Int) : Nat := (v % 2 ^ w).toNat

/-! ## The object -/

/-- Modelled from the spec: the state behind the accessors that the header
declares (`length`, `sign`, `digit`), as in the data model of section 3: the
sign (`true` means negative) and the limbs `digit(0) .. digit(length() - 1)`,
least significant first; `length()` is the number of limbs in use. -/
structure BigInt where
  sign : Bool
  digits : List Nat
deriving DecidableEq, Repr

namespace BigInt

/-- Modelled from the spec: accessor `length()` (declared by macro, body
missing): the number of limbs in use. -/
def length (x : BigInt) : Nat := x.digits.length

/-- Modelled from the spec: accessor `digit(n)` (declared, body missing). -/
def digit (x : BigInt) (n : Nat) : Nat := x.digits.getD n 0

/-- Modelled from the spec: accessor `set_digit(n, value)` (declared, body
missing): only limb `n` changes. -/
def set_digit (x : BigInt) (n : Nat) (value : Nat) : BigInt :=
  { x with digits := x.digits.set n value }

/-- Modelled from the spec: accessor `set_sign(value)` (declared by macro, body
missing): only the sign changes. -/
def set_sign (x : BigInt) (value : Bool) : BigInt :=
  { x with sign := value }

/-- The debug assertion of `is_zero`: `DCHECK(length() > 0 || !sign())`. -/
def is_zero_dcheck (x : BigInt) : Bool := decide (x.length > 0) || !x.sign

/-- `bool is_zero() { return length() == 0; }` -/
def is_zero (x : BigInt) : Bool := x.length == 0

/-- `bool ToBoolean() { return !is_zero(); }` -/
def ToBoolean (x : BigInt) : Bool := !x.is_zero

/-- `uint32_t Hash()`: `is_zero() ? 0 : ComputeIntegerHash(static_cast<uint32_t>(digit(0)))`.
`ComputeIntegerHash` (src/utils.h) is a parameter. -/
def Hash (ComputeIntegerHash : Nat → Nat) (x : BigInt) : Nat :=
  if x.is_zero then 0 else ComputeIntegerHash (x.digit 0 % 2 ^ 32)

/-- `void set_value(int value)` on a `w`-bit `digit_t`; its debug assertion is
`length() == 1`.  The negation is the host's wrapping negation ("This can
overflow. We don't care."). -/
def set_value (w : Nat) (x : BigInt) (value : Int) : BigInt :=
  if value > 0 then
    x.set_digit 0 (to_digit_t w value)
  else
    (x.set_digit 0 (to_digit_t w (wrapInt32 (-value)))).set_sign true

end BigInt

/-! ## Length limits and object size -/

/-- `static const int kMaxLengthBits = 20;` -/
def kMaxLengthBits : Nat := 20

/-- `static const int kMaxLength = (1 << kMaxLengthBits) - 1;` -/
def kMaxLength : Nat := (1 <<< kMaxLengthBits) - 1

/-- `static const int kDigitBits = kDigitSize * kBitsPerByte;` where
`kDigitSize = sizeof(digit_t)` is the parameter. -/
def kDigitBits (kDigitSize : Nat) : Nat := kDigitSize * kBitsPerByte

/-- `kBitfieldOffset = HeapObject::kHeaderSize`. -/
def kBitfieldOffset (heapObjectHeaderSize : Nat) : Nat := heapObjectHeaderSize

/-- `kDigitsOffset = kBitfieldOffset + kPointerSize`. -/
def kDigitsOffset (heapObjectHeaderSize kPointerSize : Nat) : Nat :=
  kBitfieldOffset heapObjectHeaderSize + kPointerSize

/-- `kHeaderSize = kDigitsOffset`. -/
def kHeaderSize (heapObjectHeaderSize kPointerSize : Nat) : Nat :=
  kDigitsOffset heapObjectHeaderSize kPointerSize

/-- `static int SizeFor(int length) { return kHeaderSize + length * kDigitSize; }`
in 32-bit host arithmetic. -/
def SizeFor (heapObjectHeaderSize kPointerSize kDigitSize : Nat) (length : Int) : Int :=
  wrapInt32 (kHeaderSize heapObjectHeaderSize kPointerSize + wrapInt32 (length * kDigitSize))

/-- Modelled from the spec: the `BitField<T, shift, size>` template of
src/utils.h, which is not among the sources.  A field occupies `size` bits of
the packed word starting at bit `shift`. -/
structure BitField where
  shift : Nat
  size : Nat
deriving DecidableEq, Repr

namespace BitField

/-- Modelled from the spec: `BitField::kMask`,
`((1 << shift) << size) - (1 << shift)`. -/
def kMask (f : BitField) : Nat := ((1 <<< f.shift) <<< f.size) - (1 <<< f.shift)

/-- Modelled from the spec: `BitField::kNext`, `kShift + kSize`, the first bit
after the field. -/
def kNext (f : BitField) : Nat := f.shift + f.size

/-- Modelled from the spec: `BitField::kMax`, `(1 << size) - 1`, the largest
value the field holds. -/
def kMax (f : BitField) : Nat := (1 <<< f.size) - 1

/-- Modelled from the spec: `BitField::is_valid(value)`, no bit of `value`
outside `kMax`. -/
def is_valid (f : BitField) (value : Nat) : Bool := value / 2 ^ f.size == 0

/-- Modelled from the spec: `BitField::encode(value)`, `value << shift`. -/
def encode (f : BitField) (value : Nat) : Nat := value <<< f.shift

/-- Modelled from the spec: `BitField::decode(word)`, `(word & kMask) >> shift`. -/
def decode (f : BitField) (word : Nat) : Nat := (word &&& f.kMask) >>> f.shift

end BitField

/-- `class LengthBits : public BitField<int, 0, kMaxLengthBits> {};` -/
def LengthBits : BitField := ⟨0, kMaxLengthBits⟩

/-- `class SignBits : public BitField<bool, LengthBits::kNext, 1> {};` -/
def SignBits : BitField := ⟨LengthBits.kNext, 1⟩

/-! ## Magnitudes and the normalization invariant -/

/-- The number denoted by a little-endian limb sequence in base `2 ^ w`. -/
def limbsVal (w : Nat) : List Nat → Nat
  | [] => 0
  | d :: ds => d + 2 ^ w * limbsVal w ds

namespace BigInt

/-- The most significant limb, `digit(length() - 1)`. -/
def msd (x : BigInt) : Nat := x.digit (x.length - 1)

/-- The magnitude `abs(x)` as a number. -/
def magnitude (w : Nat) (x : BigInt) : Nat := limbsVal w x.digits

/-- The normalization invariant: the length is 0 or the most significant limb
is non-zero, and a zero magnitude has sign `false` ("There is no -0n"). -/
def normalized (w : Nat) (x : BigInt) : Prop :=
  (x.length = 0 ∨ x.msd ≠ 0) ∧ (x.magnitude w = 0 → x.sign = false)

instance (w : Nat) (x : BigInt) : Decidable (x.normalized w) := by
  unfold normalized; exact inferInstance

end BigInt

/-! ## Arithmetic (src/objects/bigint.cc is not among the sources)

The header only declares the arithmetic; the definitions below follow the
specification's description of the kernels (sections 3, 4.2, 4.3, 4.4 and 7).
`Add` and `Multiply` return a plain handle in the header and so have no failed
result; `Divide` and `Remainder` return a `MaybeHandle`, modelled by `Except`.
Allocation is the host runtime's concern: running out of representable length
(`kMaxLength`) is a fatal error of the allocator, which, like running out of
memory, is outside this model. -/

/-- Modelled from the spec: limb-by-limb comparison from the most significant
limb of two sequences given most significant limb first. -/
def compareLimbsFromTop : List Nat → List Nat → Int
  | a :: as, b :: bs => if a = b then compareLimbsFromTop as bs else if a > b then 1 else -1
  | _, _ => 0

namespace BigInt

/-- Well-formed value: every limb is below `2 ^ w` and the object is normalized. -/
def WF (w : Nat) (x : BigInt) : Prop := (∀ d ∈ x.digits, d < 2 ^ w) ∧ x.normalized w

instance (w : Nat) (x : BigInt) : Decidable (x.WF w) := by
  unfold WF; exact inferInstance

/-- The signed number denoted by the object. -/
def toInt (w : Nat) (x : BigInt) : Int := if x.sign then -(x.magnitude w : Int) else x.magnitude w

/-- Modelled from the spec: `AbsoluteCompare` (declared, body missing):
positive, negative or zero; by length first, then limb by limb from the most
significant. -/
def AbsoluteCompare (x y : BigInt) : Int :=
  let diff : Int := (x.length : Int) - (y.length : Int)
  if diff ≠ 0 then diff else compareLimbsFromTop x.digits.reverse y.digits.reverse

end BigInt

end V8

/-! # Theorems -/

namespace V8

/-! ## `set_value` -/

theorem wrapInt32_of_isInt32 {z : Int} (h : isInt32 z) : wrapInt32 z = z := by
  unfold isInt32 kMinInt kMaxInt at h
  unfold wrapInt32
  omega

theorem to_digit_t_of_nonneg {w : Nat} {v : Int} (h0 : 0 ≤ v) (h1 : v < 2 ^ w) :
    to_digit_t w v = v.toNat := by
  unfold to_digit_t
  rw [Int.emod_eq_of_lt h0 h1]

theorem two_pow_31_le {w : Nat} (hw : 31 ≤ w) : (2 : Int) ^ 31 ≤ 2 ^ w :=
  pow_le_pow_right₀ (by norm_num) hw

/-- On a one-limb object, away from `0` and from `kMinInt`, `set_value` stores
`|value|` in `digit(0)`; the sign is set exactly on the non-positive branch. -/
theorem set_value_digit_sign {w : Nat} (hw : 31 ≤ w) (x : BigInt) (value : Int)
    (hx : x.length = 1) (hv : isInt32 value) (hmin : value ≠ kMinInt) :
    (x.set_value w value).digit 0 = value.natAbs ∧
      (x.set_value w value).sign = (decide (value ≤ 0) || x.sign) := by
  obtain ⟨s, ds⟩ := x
  have hp := two_pow_31_le hw
  match ds, hx with
  | [d], _ =>
    unfold isInt32 kMinInt kMaxInt at hv
    unfold kMinInt kMaxInt at hmin
    by_cases hpos : value > 0
    · have h1 : value < 2 ^ w := by omega
      simp only [BigInt.set_value, hpos, if_true, BigInt.set_digit, BigInt.digit,
        List.set_cons_zero, List.getD_cons_zero, to_digit_t_of_nonneg (le_of_lt hpos) h1]
      refine ⟨by omega, ?_⟩
      have : ¬ value ≤ 0 := by omega
      simp [this]
    · have hneg : isInt32 (-value) := by
        unfold isInt32 kMinInt kMaxInt; omega
      have h0 : 0 ≤ -value := by omega
      have h1 : -value < 2 ^ w := by omega
      simp only [BigInt.set_value, hpos, if_false, BigInt.set_digit, BigInt.set_sign,
        BigInt.digit, List.set_cons_zero, List.getD_cons_zero, wrapInt32_of_isInt32 hneg,
        to_digit_t_of_nonneg h0 h1]
      refine ⟨by omega, ?_⟩
      have : value ≤ 0 := by omega
      simp [this]

/-- C1, the code at the failing input: on a fresh one-limb object with sign
`false`, `set_value(0)` stores `0` in `digit(0)` and sets the sign to `true`,
whereas `0 < 0` is false. -/
theorem set_value_zero_sets_sign :
    isInt32 0 ∧ (0 : Int) ≠ kMinInt ∧
      ((⟨false, [0]⟩ : BigInt).set_value 64 0).digit 0 = 0 ∧
      ((⟨false, [0]⟩ : BigInt).set_value 64 0).sign = true ∧
      decide ((0 : Int) < 0) = false := by
  refine ⟨by decide, by decide, by decide, by decide, by decide⟩

/-- C2, as stated, fails at `value = 0`: the result has length 1, its most
significant limb is 0, its magnitude is 0 and its sign is `true`. -/
theorem set_value_zero_not_normalized :
    isInt32 0 ∧ (⟨false, [0]⟩ : BigInt).length = 1 ∧
      ¬ ((⟨false, [0]⟩ : BigInt).set_value 64 0).normalized 64 := by
  refine ⟨by decide, by decide, by decide⟩

/-- C2 (amended): for every host int `value` other than 0, on a one-limb
object with sign `false` and a 32- or 64-bit `digit_t`, the result of
`set_value(value)` has a non-zero most significant limb, and therefore a
non-zero magnitude. -/
theorem set_value_normalized (w : Nat) (hw : w = 32 ∨ w = 64) (x : BigInt) (value : Int)
    (hx : x.length = 1) (hs : x.sign = false) (hv : isInt32 value) (h0 : value ≠ 0) :
    (x.set_value w value).normalized w := by
  have hmsd : (x.set_value w value).length = 1 ∧ (x.set_value w value).digit 0 ≠ 0 := by
    by_cases hmin : value = kMinInt
    · obtain ⟨s, ds⟩ := x
      match ds, hx with
      | [d], _ =>
        subst hmin
        have e32 : to_digit_t 32 (wrapInt32 (-kMinInt)) = 2147483648 := by decide
        have e64 : to_digit_t 64 (wrapInt32 (-kMinInt)) = 18446744071562067968 := by decide
        have hn : ¬ kMinInt > 0 := by decide
        rcases hw with rfl | rfl
        · simp [BigInt.set_value, hn, BigInt.set_digit, BigInt.set_sign, BigInt.length,
            BigInt.digit, e32]
        · simp [BigInt.set_value, hn, BigInt.set_digit, BigInt.set_sign, BigInt.length,
            BigInt.digit, e64]
    · have hw31 : 31 ≤ w := by omega
      obtain ⟨hd, -⟩ := set_value_digit_sign hw31 x value hx hv hmin
      refine ⟨?_, by rw [hd]; omega⟩
      unfold BigInt.set_value
      split <;> simp [BigInt.set_digit, BigInt.set_sign, BigInt.length] at hx ⊢ <;> exact hx
  obtain ⟨hl, hd⟩ := hmsd
  have hmag : (x.set_value w value).magnitude w ≠ 0 := by
    generalize x.set_value w value = r at hl hd
    obtain ⟨s, ds⟩ := r
    match ds, hl with
    | [d], _ =>
      simp only [BigInt.digit, List.getD_cons_zero] at hd
      simp only [BigInt.magnitude, limbsVal]
      omega
  refine ⟨Or.inr ?_, fun h => absurd h hmag⟩
  unfold BigInt.msd
  rw [hl]
  exact hd

theorem set_value_normalized_witness :
    ((⟨false, [0]⟩ : BigInt).set_value 64 (-5)).normalized 64 :=
  set_value_normalized 64 (Or.inr rfl) ⟨false, [0]⟩ (-5) (by decide) (by decide)
    (by decide) (by decide)

/-- C10: for every host int `value > 0`, `set_value(value)` on a one-limb
object changes only `digit(0)` (to `value`): the sign and the length are left
as they were, so a sign that was `true` stays `true`. -/
theorem set_value_positive_frame (w : Nat) (hw : 31 ≤ w) (x : BigInt) (value : Int)
    (hx : x.length = 1) (hv : isInt32 value) (hpos : 0 < value) :
    (x.set_value w value).sign = x.sign ∧
      (x.set_value w value).length = x.length ∧
      (∀ n, n ≠ 0 → (x.set_value w value).digit n = x.digit n) ∧
      (x.set_value w value).digit 0 = value.toNat ∧
      (x.sign = true → (x.set_value w value).sign = true) := by
  have hp := two_pow_31_le hw
  have h1 : value < 2 ^ w := by
    unfold isInt32 kMinInt kMaxInt at hv; omega
  have hb : value > 0 := hpos
  have hset : x.set_value w value = x.set_digit 0 value.toNat := by
    simp only [BigInt.set_value, hb, if_true, to_digit_t_of_nonneg (le_of_lt hpos) h1]
  rw [hset]
  obtain ⟨s, ds⟩ := x
  match ds, hx with
  | [d], _ =>
    refine ⟨rfl, rfl, ?_, rfl, fun h => h⟩
    intro n hn
    cases n with
    | zero => exact absurd rfl hn
    | succ n => rfl

theorem set_value_positive_frame_witness :
    ((⟨true, [9]⟩ : BigInt).set_value 64 7).sign = true ∧
      ((⟨true, [9]⟩ : BigInt).set_value 64 7).digit 0 = 7 :=
  have h := set_value_positive_frame 64 (by decide) ⟨true, [9]⟩ 7 (by decide) (by decide)
    (by decide)
  ⟨h.1, h.2.2.2.1⟩

/-! ## `is_zero`, `ToBoolean`, `Hash` -/

/-- C6: `is_zero()` is true iff `length() == 0`; `ToBoolean()` is false iff
`is_zero()`; hence `ToBoolean()` is true exactly when `length() > 0`. -/
theorem is_zero_ToBoolean (x : BigInt) :
    (x.is_zero = true ↔ x.length = 0) ∧ (x.ToBoolean = false ↔ x.is_zero = true) ∧
      (x.ToBoolean = true ↔ 0 < x.length) := by
  unfold BigInt.ToBoolean BigInt.is_zero
  refine ⟨by simp, by simp, ?_⟩
  simp only [Bool.not_eq_true', beq_eq_false_iff_ne, ne_eq]
  omega

/-- C7: every zero object hashes to 0, and two non-zero objects with the same
`digit(0)` have the same hash, whatever their signs, lengths and higher limbs. -/
theorem Hash_zero_and_low_limb (ComputeIntegerHash : Nat → Nat) :
    (∀ x : BigInt, x.is_zero = true → x.Hash ComputeIntegerHash = 0) ∧
      (∀ x y : BigInt, x.is_zero = false → y.is_zero = false → x.digit 0 = y.digit 0 →
        x.Hash ComputeIntegerHash = y.Hash ComputeIntegerHash) := by
  refine ⟨fun x hx => ?_, fun x y hx hy hd => ?_⟩
  · simp [BigInt.Hash, hx]
  · simp [BigInt.Hash, hx, hy, hd]

/-! ## The length field, `kMaxLength` and `SizeFor` -/

theorem and_two_pow_of_lt {n k : Nat} (h : n < 2 ^ k) : n &&& 2 ^ k = 0 := by
  apply Nat.eq_of_testBit_eq
  intro i
  simp only [Nat.testBit_and, Nat.testBit_two_pow, Nat.zero_testBit, Bool.and_eq_false_imp,
    decide_eq_false_iff_not]
  intro hn hk
  subst hk
  rw [Nat.testBit_lt_two_pow h] at hn
  exact Bool.noConfusion hn

theorem two_pow_add_and_two_pow {n k : Nat} (h : n < 2 ^ k) :
    (2 ^ k + n) &&& 2 ^ k = 2 ^ k := by
  apply Nat.eq_of_testBit_eq
  intro i
  by_cases hk : k = i
  · subst hk
    simp [Nat.testBit_and, Nat.testBit_two_pow_add_eq, Nat.testBit_lt_two_pow h]
  · simp [Nat.testBit_and, Nat.testBit_two_pow, hk]

/-- C8: `kMaxLength` is `2^20 - 1`, the largest value of the 20-bit field
`LengthBits`; the values that fit in the field are exactly the lengths up to
`kMaxLength`, and each is read back unchanged; `SignBits` is the one bit at
position 20, its mask is disjoint from that of `LengthBits`, and a word packed
from a length and a sign gives both back. -/
theorem kMaxLength_LengthBits_SignBits :
    kMaxLength = 2 ^ 20 - 1 ∧ kMaxLength = LengthBits.kMax ∧
      (∀ n, n ≤ kMaxLength ↔ LengthBits.is_valid n = true) ∧
      (∀ n, n ≤ kMaxLength → LengthBits.decode (LengthBits.encode n) = n) ∧
      SignBits.shift = 20 ∧ SignBits.size = 1 ∧
      LengthBits.kMask &&& SignBits.kMask = 0 ∧
      (∀ n (s : Bool), n ≤ kMaxLength →
        LengthBits.decode (LengthBits.encode n ||| SignBits.encode s.toNat) = n ∧
        SignBits.decode (LengthBits.encode n ||| SignBits.encode s.toNat) = s.toNat) := by
  have hk : kMaxLength = 2 ^ 20 - 1 := by decide
  have hm : LengthBits.kMask = 2 ^ 20 - 1 := by decide
  have hs : SignBits.kMask = 2 ^ 20 := by decide
  have hdec : ∀ word, LengthBits.decode word = word % 2 ^ 20 := by
    intro word
    unfold BitField.decode
    rw [hm, Nat.and_pow_two_sub_one_eq_mod]
    rfl
  have hsdec : ∀ word, SignBits.decode word = (word &&& 2 ^ 20) >>> 20 := by
    intro word
    unfold BitField.decode
    rw [hs]
    rfl
  have henc : ∀ n, LengthBits.encode n = n := fun n => rfl
  have hsenc : ∀ n, SignBits.encode n = n <<< 20 := fun n => rfl
  refine ⟨hk, by decide, ?_, ?_, by decide, by decide, by decide, ?_⟩
  · intro n
    simp only [hk, BitField.is_valid, LengthBits, kMaxLengthBits, beq_iff_eq]
    omega
  · intro n hn
    have hlt : n < 2 ^ 20 := by omega
    rw [hdec, henc]
    exact Nat.mod_eq_of_lt hlt
  · intro n s hn
    have hlt : n < 2 ^ 20 := by omega
    rw [hdec, hsdec, henc, hsenc]
    cases s with
    | false =>
      simp only [Bool.toNat_false, Nat.zero_shiftLeft, Nat.or_zero, and_two_pow_of_lt hlt,
        Nat.zero_shiftRight, and_true]
      exact Nat.mod_eq_of_lt hlt
    | true =>
      have hw : n ||| 1 <<< 20 = 2 ^ 20 + n := by
        rw [Nat.one_shiftLeft, Nat.or_comm]
        have := Nat.mul_add_lt_is_or hlt 1
        simpa using this.symm
      simp only [Bool.toNat_true, hw, two_pow_add_and_two_pow hlt]
      refine ⟨by omega, by decide⟩

/-- C9: for a `digit_t` of 4 or 8 bytes (32 or 64 bits) `kMaxLength` is at most,
and in fact below, `kMaxInt / kDigitBits`; for every length in `0 .. kMaxLength` the bit count
`length * kDigitBits`, the product `length * kDigitSize` and the byte size are
host ints, so `SizeFor(length)` is `kHeaderSize + length * kDigitSize` without
wrap-around, and `SizeFor` is strictly increasing on that range.  The object
header (`HeapObject::kHeaderSize + kPointerSize`) is taken to be at most
`2^30` bytes. -/
theorem SizeFor_no_overflow (heapObjectHeaderSize kPointerSize kDigitSize : Nat)
    (hd : kDigitSize = 4 ∨ kDigitSize = 8) (hH : heapObjectHeaderSize + kPointerSize ≤ 2 ^ 30) :
    (kMaxLength : Int) ≤ kMaxInt / (kDigitBits kDigitSize : Int) ∧
      (kMaxLength : Int) < kMaxInt / (kDigitBits kDigitSize : Int) ∧
      (∀ length : Int, 0 ≤ length → length ≤ kMaxLength →
        isInt32 (length * (kDigitBits kDigitSize : Int)) ∧
        isInt32 (length * (kDigitSize : Int)) ∧
        isInt32 (kHeaderSize heapObjectHeaderSize kPointerSize + length * (kDigitSize : Int)) ∧
        SizeFor heapObjectHeaderSize kPointerSize kDigitSize length =
          kHeaderSize heapObjectHeaderSize kPointerSize + length * (kDigitSize : Int)) ∧
      (∀ a b : Int, 0 ≤ a → a < b → b ≤ kMaxLength →
        SizeFor heapObjectHeaderSize kPointerSize kDigitSize a <
          SizeFor heapObjectHeaderSize kPointerSize kDigitSize b) := by
  have hk : (kMaxLength : Int) = 1048575 := by decide
  have hsz : ∀ length : Int, 0 ≤ length → length ≤ kMaxLength →
      isInt32 (length * (kDigitBits kDigitSize : Int)) ∧
      isInt32 (length * (kDigitSize : Int)) ∧
      isInt32 (kHeaderSize heapObjectHeaderSize kPointerSize + length * (kDigitSize : Int)) ∧
      SizeFor heapObjectHeaderSize kPointerSize kDigitSize length =
        kHeaderSize heapObjectHeaderSize kPointerSize + length * (kDigitSize : Int) := by
    intro length h0 h1
    rw [hk] at h1
    have hH2 : ((heapObjectHeaderSize : Int) + kPointerSize) ≤ 1073741824 := by
      have : heapObjectHeaderSize + kPointerSize ≤ 1073741824 := by simpa using hH
      exact_mod_cast this
    have hhdr : (kHeaderSize heapObjectHeaderSize kPointerSize : Int) =
        (heapObjectHeaderSize : Int) + kPointerSize := by
      simp [kHeaderSize, kDigitsOffset, kBitfieldOffset]
    have i1 : isInt32 (length * (kDigitBits kDigitSize : Int)) := by
      unfold isInt32 kMinInt kMaxInt kDigitBits kBitsPerByte
      rcases hd with rfl | rfl <;> push_cast <;> omega
    have i2 : isInt32 (length * (kDigitSize : Int)) := by
      unfold isInt32 kMinInt kMaxInt
      rcases hd with rfl | rfl <;> push_cast <;> omega
    have i3 : isInt32 (kHeaderSize heapObjectHeaderSize kPointerSize +
        length * (kDigitSize : Int)) := by
      rw [hhdr]
      unfold isInt32 kMinInt kMaxInt
      rcases hd with rfl | rfl <;> push_cast <;> omega
    refine ⟨i1, i2, i3, ?_⟩
    unfold SizeFor
    rw [wrapInt32_of_isInt32 i2, wrapInt32_of_isInt32 i3]
  refine ⟨?_, ?_, hsz, ?_⟩
  · rcases hd with rfl | rfl <;> decide
  · rcases hd with rfl | rfl <;> decide
  · intro a b ha hab hb
    rw [(hsz a ha (by omega)).2.2.2, (hsz b (by omega) hb).2.2.2]
    have hpos : (0 : Int) < kDigitSize := by
      rcases hd with rfl | rfl <;> norm_num
    have := mul_lt_mul_of_pos_right hab hpos
    omega

theorem SizeFor_no_overflow_witness :
    SizeFor 8 8 8 (kMaxLength : Int) = kHeaderSize 8 8 + (kMaxLength : Int) * ((8 : Nat) : Int) :=
  ((SizeFor_no_overflow 8 8 8 (Or.inr rfl) (by decide)).2.2.1 (kMaxLength : Int) (by decide)
    (le_refl _)).2.2.2

/-! ## Limb sequences -/

theorem limbsVal_append (w : Nat) (xs ys : List Nat) :
    limbsVal w (xs ++ ys) = limbsVal w xs + (2 ^ w) ^ xs.length * limbsVal w ys := by
  induction xs with
  | nil => simp [limbsVal]
  | cons d ds ih =>
    show d + 2 ^ w * limbsVal w (ds ++ ys) = _
    rw [ih]
    simp only [limbsVal, List.length_cons, pow_succ]
    ring

theorem limbsVal_lt (w : Nat) (xs : List Nat) (h : ∀ d ∈ xs, d < 2 ^ w) :
    limbsVal w xs < (2 ^ w) ^ xs.length := by
  induction xs with
  | nil => simp [limbsVal]
  | cons d ds ih =>
    have hd : d < 2 ^ w := h d (List.mem_cons_self _ _)
    have hds : limbsVal w ds + 1 ≤ (2 ^ w) ^ ds.length :=
      ih (fun e he => h e (List.mem_cons_of_mem _ he))
    have hm := Nat.mul_le_mul_left (2 ^ w) hds
    simp only [limbsVal, List.length_cons, pow_succ]
    generalize 2 ^ w = B at *
    generalize B ^ ds.length = P at *
    generalize limbsVal w ds = v at *
    nlinarith

/-- The most significant limb of a limb sequence (0 for the empty one). -/
theorem getD_length_sub_one_cons (d e : Nat) (es : List Nat) :
    (d :: e :: es).getD ((d :: e :: es).length - 1) 0 = (e :: es).getD ((e :: es).length - 1) 0 := by
  simp [List.getD_cons_succ]

theorem limbsVal_ge_of_top (w : Nat) (xs : List Nat) (hne : xs ≠ [])
    (htop : xs.getD (xs.length - 1) 0 ≠ 0) : (2 ^ w) ^ (xs.length - 1) ≤ limbsVal w xs := by
  induction xs with
  | nil => exact absurd rfl hne
  | cons d ds ih =>
    cases ds with
    | nil =>
      simp only [List.length_singleton, Nat.sub_self, List.getD_cons_zero] at htop
      simp only [List.length_singleton, Nat.sub_self, pow_zero, limbsVal]
      omega
    | cons e es =>
      rw [getD_length_sub_one_cons] at htop
      have h := ih (List.cons_ne_nil _ _) htop
      have hm := Nat.mul_le_mul_left (2 ^ w) h
      simp only [List.length_cons, Nat.add_sub_cancel] at h hm ⊢
      rw [limbsVal, pow_succ]
      generalize limbsVal w (e :: es) = v at *
      generalize 2 ^ w = B at *
      generalize B ^ es.length = P at *
      nlinarith

/-! ## Right-trim -/

theorem compareLimbsFromTop_cases (w : Nat) :
    ∀ as bs : List Nat, as.length = bs.length → (∀ d ∈ as, d < 2 ^ w) →
      (∀ d ∈ bs, d < 2 ^ w) →
      (compareLimbsFromTop as bs = 1 ∧ limbsVal w bs.reverse < limbsVal w as.reverse) ∨
      (compareLimbsFromTop as bs = -1 ∧ limbsVal w as.reverse < limbsVal w bs.reverse) ∨
      (compareLimbsFromTop as bs = 0 ∧ limbsVal w as.reverse = limbsVal w bs.reverse) := by
  intro as
  induction as with
  | nil =>
    intro bs hl _ _
    cases bs with
    | nil => exact Or.inr (Or.inr ⟨rfl, rfl⟩)
    | cons b bs => simp at hl
  | cons a as ih =>
    intro bs hl ha hb
    cases bs with
    | nil => simp at hl
    | cons b bs =>
      have hl2 : as.length = bs.length := by simpa using hl
      have ha2 : ∀ d ∈ as.reverse, d < 2 ^ w := fun d hd =>
        ha d (List.mem_cons_of_mem _ (List.mem_reverse.mp hd))
      have hb2 : ∀ d ∈ bs.reverse, d < 2 ^ w := fun d hd =>
        hb d (List.mem_cons_of_mem _ (List.mem_reverse.mp hd))
      have hva := limbsVal_lt w as.reverse ha2
      have hvb := limbsVal_lt w bs.reverse hb2
      have hrec := ih bs hl2 (fun d hd => ha d (List.mem_cons_of_mem _ hd))
        (fun d hd => hb d (List.mem_cons_of_mem _ hd))
      simp only [List.reverse_cons, limbsVal_append, List.length_reverse, limbsVal,
        Nat.mul_zero, Nat.add_zero] at hva hvb ⊢
      rw [← hl2] at hvb ⊢
      generalize limbsVal w as.reverse = va at *
      generalize limbsVal w bs.reverse = vb at *
      generalize (2 ^ w) ^ as.length = P at *
      simp only [compareLimbsFromTop]
      by_cases hab : a = b
      · subst hab
        simp only [if_true]
        generalize P * a = t
        omega
      · simp only [hab, if_false]
        by_cases hgt : a > b
        · simp only [hgt, if_true]
          left
          refine ⟨trivial, ?_⟩
          have : P * (b + 1) ≤ P * a := Nat.mul_le_mul_left P hgt
          nlinarith
        · simp only [hgt, if_false]
          right; left
          refine ⟨trivial, ?_⟩
          have hlt : a + 1 ≤ b := by omega
          have : P * (a + 1) ≤ P * b := Nat.mul_le_mul_left P hlt
          nlinarith

theorem limbsVal_lt_of_length_lt (w : Nat) (xs ys : List Nat) (hx : ∀ d ∈ xs, d < 2 ^ w)
    (hy : ys = [] ∨ ys.getD (ys.length - 1) 0 ≠ 0) (hl : xs.length < ys.length) :
    limbsVal w xs < limbsVal w ys := by
  have hne : ys ≠ [] := by
    intro h
    rw [h] at hl
    exact Nat.not_lt_zero _ hl
  rcases hy with hy | hy
  · exact absurd hy hne
  · have h1 := limbsVal_lt w xs hx
    have h2 := limbsVal_ge_of_top w ys hne hy
    have h3 : (2 ^ w) ^ xs.length ≤ (2 ^ w) ^ (ys.length - 1) :=
      Nat.pow_le_pow_right (by positivity) (by omega)
    omega

theorem AbsoluteCompare_spec (w : Nat) (x y : BigInt)
    (hx : ∀ d ∈ x.digits, d < 2 ^ w) (hy : ∀ d ∈ y.digits, d < 2 ^ w)
    (hxn : x.length = 0 ∨ x.msd ≠ 0) (hyn : y.length = 0 ∨ y.msd ≠ 0) :
    (0 < x.AbsoluteCompare y ↔ y.magnitude w < x.magnitude w) ∧
      (x.AbsoluteCompare y < 0 ↔ x.magnitude w < y.magnitude w) ∧
      (x.AbsoluteCompare y = 0 ↔ x.magnitude w = y.magnitude w) := by
  have hxn2 : x.digits = [] ∨ x.digits.getD (x.digits.length - 1) 0 ≠ 0 := by
    rcases hxn with h | h
    · exact Or.inl (List.length_eq_zero.mp h)
    · exact Or.inr h
  have hyn2 : y.digits = [] ∨ y.digits.getD (y.digits.length - 1) 0 ≠ 0 := by
    rcases hyn with h | h
    · exact Or.inl (List.length_eq_zero.mp h)
    · exact Or.inr h
  unfold BigInt.AbsoluteCompare BigInt.magnitude BigInt.length
  by_cases hl : x.digits.length = y.digits.length
  · have hd : ¬ ((x.digits.length : Int) - (y.digits.length : Int) ≠ 0) := by
      rw [hl]; simp
    simp only [hd, if_false]
    have h := compareLimbsFromTop_cases w x.digits.reverse y.digits.reverse
      (by simpa using hl) (fun d hd => hx d (List.mem_reverse.mp hd))
      (fun d hd => hy d (List.mem_reverse.mp hd))
    simp only [List.reverse_reverse] at h
    omega
  · have hd : (x.digits.length : Int) - (y.digits.length : Int) ≠ 0 := by omega
    simp only [hd, if_true]
    rcases Nat.lt_or_gt_of_ne hl with h | h
    · have := limbsVal_lt_of_length_lt w x.digits y.digits hx hyn2 h
      omega
    · have := limbsVal_lt_of_length_lt w y.digits x.digits hy hxn2 h
      omega

/-! ## Limb arithmetic -/

theorem toInt_eq_zero_iff (w : Nat) (x : BigInt) : x.toInt w = 0 ↔ x.magnitude w = 0 := by
  unfold BigInt.toInt
  split <;> omega

/-- C5: for well-formed (normalized) `x` and `y`, `AbsoluteCompare(x, y)` is
positive iff `abs(x) > abs(y)`, negative iff `abs(x) < abs(y)` and zero iff
`abs(x) == abs(y)`; the result does not depend on the signs. -/
theorem AbsoluteCompare_magnitude_order (w : Nat) (x y : BigInt) (hx : x.WF w) (hy : y.WF w) :
    (0 < x.AbsoluteCompare y ↔ y.magnitude w < x.magnitude w) ∧
      (x.AbsoluteCompare y < 0 ↔ x.magnitude w < y.magnitude w) ∧
      (x.AbsoluteCompare y = 0 ↔ x.magnitude w = y.magnitude w) ∧
      (∀ sx sy : Bool,
        BigInt.AbsoluteCompare ⟨sx, x.digits⟩ ⟨sy, y.digits⟩ = x.AbsoluteCompare y) := by
  obtain ⟨c1, c2, c3⟩ := AbsoluteCompare_spec w x y hx.1 hy.1 hx.2.1 hy.2.1
  exact ⟨c1, c2, c3, fun _ _ => rfl⟩

theorem AbsoluteCompare_magnitude_order_witness :
    (0 < BigInt.AbsoluteCompare ⟨true, [0, 1]⟩ ⟨false, [4294967295]⟩ ↔
        BigInt.magnitude 32 ⟨false, [4294967295]⟩ < BigInt.magnitude 32 ⟨true, [0, 1]⟩) ∧
      (0 < BigInt.AbsoluteCompare ⟨false, [9, 2]⟩ ⟨true, [3, 5]⟩ ↔
        BigInt.magnitude 32 ⟨true, [3, 5]⟩ < BigInt.magnitude 32 ⟨false, [9, 2]⟩) :=
  ⟨(AbsoluteCompare_magnitude_order 32 ⟨true, [0, 1]⟩ ⟨false, [4294967295]⟩ (by decide)
      (by decide)).1,
    (AbsoluteCompare_magnitude_order 32 ⟨false, [9, 2]⟩ ⟨true, [3, 5]⟩ (by decide)
      (by decide)).1⟩

end V8
